import Mathlib

/-!
Verification of the subprocess-orchestration / streaming-output core of the
git-ai command-line helper, shallowly embedded in Lean 4.

Go strings are modelled as lists of characters (`GoStr`); the streaming
event parsers, the `WrapMessage` post-processor, the Process Registry and
the per-backend result-finalization paths are translated from the Go source
(`pkg/providers/registry.go`, `pkg/providers/codex`, the claude and gemini
backends, and `pkg/commit`).  `json.Unmarshal` into `map[string]any` is
modelled by an executable recursive-descent JSON parser returning an
association list, failing (`none`) exactly when the input is not a single
JSON object.
-/

set_option maxHeartbeats 1000000

/-- Go strings modelled as lists of characters (byte-level for ASCII data). -/
abbrev GoStr := List Char

/-- Shorthand for turning a Lean string literal into a `GoStr`. -/
def gs (s : String) : GoStr := s.toList

/-- Character class used by Go's `strings.TrimSpace` (`unicode.IsSpace`),
restricted to the code points that can occur in the data handled here. -/
def isGoSpace (c : Char) : Bool :=
  c == ' ' || c == '\t' || c == '\n' || c == '\x0b' || c == '\x0c' || c == '\r'
    || c == '\x85' || c == '\xa0'

/-- `strings.TrimSpace`. -/
def trimSpace (s : GoStr) : GoStr :=
  ((s.dropWhile isGoSpace).reverse.dropWhile isGoSpace).reverse

/-- `strings.Split(s, sep)` for a single-character separator. -/
def splitOnChar (sep : Char) : GoStr → List GoStr
  | [] => [[]]
  | c :: rest =>
    if c = sep then
      [] :: splitOnChar sep rest
    else
      match splitOnChar sep rest with
      | [] => [[c]]
      | h :: t => (c :: h) :: t

/-- `strings.Split(s, "\n\n")`: split on non-overlapping, leftmost
occurrences of a blank-line separator. -/
def splitOnNN : GoStr → List GoStr
  | [] => [[]]
  | '\n' :: '\n' :: rest => [] :: splitOnNN rest
  | c :: rest =>
    match splitOnNN rest with
    | [] => [[c]]
    | h :: t => (c :: h) :: t

/-- `s` begins with `p` (Go `strings.HasPrefix`). -/
def startsWithStr : GoStr → GoStr → Bool
  | _, [] => true
  | [], _ :: _ => false
  | c :: s, p :: ps => c == p && startsWithStr s ps

/-- `s` ends with `p` (Go `strings.HasSuffix`). -/
def endsWithStr (s p : GoStr) : Bool :=
  startsWithStr s.reverse p.reverse

/-- Index of the first occurrence of substring `pat` in `s`
(Go `strings.Index`, `none` for Go's `-1`). -/
def findSub : GoStr → GoStr → Option Nat
  | s, pat =>
    if startsWithStr s pat then some 0
    else
      match s with
      | [] => none
      | _ :: t => (findSub t pat).map (· + 1)

/-- Go `strings.Contains`. -/
def containsStr (s pat : GoStr) : Bool :=
  (findSub s pat).isSome

/-- Go `strings.LastIndex(s, " ")` (`none` for `-1`). -/
def lastIndexSpace (s : GoStr) : Option Nat :=
  (s.reverse.findIdx? (fun c => c = ' ')).map (fun k => s.length - 1 - k)

/-- Join a list of lines with `"\n"` (Go `strings.Join(out, "\n")`). -/
def joinNL : List GoStr → GoStr
  | [] => []
  | [l] => l
  | l :: rest => l ++ '\n' :: joinNL rest

/-- Decimal rendering of an integer (Go `fmt.Sprint` on an `int`). -/
def intStr (n : Int) : GoStr :=
  if n < 0 then '-' :: Nat.toDigits 10 n.natAbs else Nat.toDigits 10 n.natAbs

section Registry

/-!
## Process Registry (`pkg/providers/registry.go`)

The mutex only serializes access; each exported method is modelled as a
pure transformer of the guarded state.  Signal delivery to the operating
system is modelled as a returned `SigAction` rather than an effect.
-/

/-- The signals distinguished by `Registry.ForwardSignal`:
`os.Interrupt` (SIGINT), `syscall.SIGTERM`, or anything else. -/
inductive GoSignal where
  | interrupt
  | sigterm
  | other (n : Nat)
deriving DecidableEq, Repr

/-- The part of `exec.Cmd` the registry inspects: `cmd.Process` (the pid of
the started process, or `nil` if the command was never started). -/
structure GoCmd where
  process : Option Nat
deriving DecidableEq, Repr

/-- What `ForwardSignal` does to the operating system:
nothing, `syscall.Kill(-pid, sig)` on the process group, or
`cmd.Process.Signal(sig)` on the single process. -/
inductive SigAction where
  | noAction
  | killGroup (pid : Nat) (sig : GoSignal)
  | signalProcess (pid : Nat) (sig : GoSignal)
deriving DecidableEq, Repr

/-- The mutex-guarded state of `providers.Registry`: the registered command
(`cmd`), whether a stop-spinner callback is set (`stopSpinner`), and the
latched `interrupted` flag. -/
structure RegState where
  cmd : Option GoCmd
  stopSpinner : Bool
  interrupted : Bool
deriving DecidableEq, Repr

/-- The zero value of `providers.Registry` at program start. -/
def initRegistry : RegState := ⟨none, false, false⟩

/-- `Registry.Register`: records the command and callback and clears the
interrupted flag (`r.interrupted = false`). -/
def Register (c : GoCmd) (stop : Bool) (_s : RegState) : RegState :=
  { cmd := some c, stopSpinner := stop, interrupted := false }

/-- `Registry.Unregister`: clears the command and callback. -/
def Unregister (s : RegState) : RegState :=
  { s with cmd := none, stopSpinner := false }

/-- `Registry.WasInterrupted`. -/
def WasInterrupted (s : RegState) : Bool :=
  s.interrupted

/-- `Registry.ForwardSignal(sig)`, parameterized by whether
`runtime.GOOS == "windows"`.  Sets `interrupted` only when
`sig == os.Interrupt`; then, if a started process is registered, signals
the whole process group for interrupt/termination signals on non-Windows,
and the single process otherwise. -/
def ForwardSignal (windows : Bool) (sig : GoSignal) (s : RegState) :
    RegState × SigAction :=
  let s' := { s with interrupted := s.interrupted || sig == GoSignal.interrupt }
  match s.cmd with
  | none => (s', SigAction.noAction)
  | some c =>
    match c.process with
    | none => (s', SigAction.noAction)
    | some pid =>
      if ¬windows ∧ (sig = GoSignal.interrupt ∨ sig = GoSignal.sigterm) then
        (s', SigAction.killGroup pid sig)
      else
        (s', SigAction.signalProcess pid sig)

/-- `Registry.StopSpinnerIfSet`: takes and clears the callback, returning
whether a callback was present to invoke (the invocation happens outside
the lock). -/
def StopSpinnerIfSet (s : RegState) : RegState × Bool :=
  ({ s with stopSpinner := false }, s.stopSpinner)

/-- One registry call, for reasoning about operation sequences. -/
inductive RegOp where
  | register (c : GoCmd) (stop : Bool)
  | unregister
  | forwardSignal (windows : Bool) (sig : GoSignal)
  | stopSpinnerIfSet
  | wasInterrupted
deriving DecidableEq, Repr

/-- Effect of one registry call on the guarded state. -/
def applyOp (s : RegState) : RegOp → RegState
  | RegOp.register c stop => Register c stop s
  | RegOp.unregister => Unregister s
  | RegOp.forwardSignal w sig => (ForwardSignal w sig s).1
  | RegOp.stopSpinnerIfSet => (StopSpinnerIfSet s).1
  | RegOp.wasInterrupted => s

/-- Whether an operation is a `Register` call. -/
def RegOp.isRegisterOp : RegOp → Bool
  | RegOp.register _ _ => true
  | _ => false

end Registry

section Wrap

/-!
## Result post-processor (`pkg/commit`, `WrapMessage`)

Translation of `WrapMessage(msg string, width int) string`.  The Go
word-scanning loop (skip spaces / collect a maximal non-space run) is
expressed as splitting the run on `' '` and dropping empty fields; the
mutable `line`/`out` pair becomes a fold state.
-/

/-- Maximal non-space runs of a paragraph run (the words the Go loop
scans with its two inner `for` loops). -/
def wordsOf (run : GoStr) : List GoStr :=
  (splitOnChar ' ' run).filter (fun w => ¬w.isEmpty)

/-- The sentence-boundary scan inside `WrapMessage`: starting from
`i = len(lineStr)-1` and moving down while `i >= len(lineStr)-width`,
find a sentence-ending mark (`.?!`, not preceded by `.`) followed by a
space (break at `i+2`) or at end of line (break at `i+1`).  Returns Go's
`lastSent` (`none` for `-1`). -/
def sentScanAux (s : GoStr) (width : Nat) : Nat → Option Nat
  | 0 => none
  | j + 1 =>
    let i := j + 1
    if i + width < s.length then none
    else
      let c := s.getD i ' '
      if (c = '.' ∨ c = '?' ∨ c = '!') ∧ s.getD (i - 1) ' ' ≠ '.' then
        if i + 1 < s.length ∧ s.getD (i + 1) ' ' = ' ' then some (i + 2)
        else if s.length ≤ i + 1 then some (i + 1)
        else sentScanAux s width j
      else sentScanAux s width j

/-- `lastSent` for a non-empty `lineStr` (the loop starts at `len-1`). -/
def sentScan (s : GoStr) (width : Nat) : Option Nat :=
  sentScanAux s width (s.length - 1)

/-- The break position chosen when a word no longer fits: the sentence
boundary if one was found (Go checks `lastSent > 0 && lastSent <= len`),
else after the last space if its index is positive, else the whole line. -/
def breakAtPos (lineStr : GoStr) (width : Nat) : Nat :=
  match sentScan lineStr width with
  | some ls =>
    if 0 < ls ∧ ls ≤ lineStr.length then ls
    else
      match lastIndexSpace lineStr with
      | some k => if 0 < k then k + 1 else lineStr.length
      | none => lineStr.length
  | none =>
    match lastIndexSpace lineStr with
    | some k => if 0 < k then k + 1 else lineStr.length
    | none => lineStr.length

/-- Flush the overfull `line`: emit `TrimSpace(lineStr[:breakAt])` and
carry `TrimLeft(lineStr[breakAt:], " ")` as the new line. -/
def breakLine (width : Nat) (out : List GoStr) (lineStr : GoStr) :
    List GoStr × GoStr :=
  let breakAt := breakAtPos lineStr width
  (out ++ [trimSpace (lineStr.take breakAt)],
   (lineStr.drop breakAt).dropWhile (fun c => c = ' '))

/-- One iteration of the word loop: if appending `word` (plus a joining
space when the line is non-empty) would exceed `width` and the line is
non-empty, break the current line first; then append the word. -/
def wrapStep (width : Nat) (st : List GoStr × GoStr) (word : GoStr) :
    List GoStr × GoStr :=
  let out := st.1
  let line := st.2
  let newLen := line.length + (if 0 < line.length then 1 else 0) + word.length
  let broken := if width < newLen ∧ 0 < line.length then breakLine width out line
                else (out, line)
  (broken.1, if 0 < broken.2.length then broken.2 ++ ' ' :: word else word)

/-- One paragraph of `WrapMessage`: a blank paragraph contributes a blank
output line; otherwise newlines are joined into a single run of words that
is packed by `wrapStep`, flushing any final partial line. -/
def wrapParagraph (width : Nat) (out : List GoStr) (p : GoStr) : List GoStr :=
  let p := trimSpace p
  if p.isEmpty then out ++ [[]]
  else
    let run := p.map (fun c => if c = '\n' then ' ' else c)
    let st := (wordsOf run).foldl (wrapStep width) (out, [])
    if 0 < st.2.length then st.1 ++ [st.2] else st.1

/-- Split a string at its first newline (Go: `strings.Index(result, "\n")`
with slicing); `none` when there is no newline. -/
def breakFirstNL : GoStr → Option (GoStr × GoStr)
  | [] => none
  | c :: cs =>
    if c = '\n' then some ([], cs)
    else
      match breakFirstNL cs with
      | none => none
      | some (a, b) => some (c :: a, b)

/-- The final subject/body flattening step of `WrapMessage`: keep the
first line; drop the newlines that follow it; if nothing non-blank
remains return just the first line, else rejoin with exactly one blank
line. -/
def flattenSubject (result : GoStr) : GoStr :=
  match breakFirstNL result with
  | none => result
  | some (first, tail) =>
    let rest := tail.dropWhile (fun c => c = '\n')
    if (trimSpace rest).isEmpty then first
    else first ++ '\n' :: '\n' :: rest

/-- `commit.WrapMessage(msg, width)`. -/
def WrapMessage (msg : GoStr) (width : Nat) : GoStr :=
  flattenSubject (joinNL ((splitOnNN msg).foldl (wrapParagraph width) []))

end Wrap

section Json

/-!
## `encoding/json` (`json.Unmarshal` into `map[string]any`)

An executable recursive-descent parser for the JSON grammar accepted by
Go's `json.Unmarshal`.  Decoding a line into `map[string]any` succeeds
exactly when the input is one JSON object (surrounded by optional JSON
whitespace); on success the object's members are an association list in
which a repeated key keeps its last value, matching Go map assignment.
Numbers are kept as their source characters (Go produces `float64`; no
claim depends on numeric values).
-/

/-- JSON values as decoded by `json.Unmarshal` into `any`. -/
inductive JValue where
  | jnull
  | jbool (b : Bool)
  | jnum (raw : GoStr)
  | jstr (s : GoStr)
  | jarr (elems : List JValue)
  | jobj (fields : List (GoStr × JValue))

/-- JSON structural whitespace (space, tab, newline, carriage return). -/
def isJsonWS (c : Char) : Bool :=
  c == ' ' || c == '\t' || c == '\n' || c == '\r'

/-- Skip JSON whitespace. -/
def skipWS (s : GoStr) : GoStr :=
  s.dropWhile isJsonWS

/-- Value of a hexadecimal digit. -/
def hexVal (c : Char) : Option Nat :=
  if '0' ≤ c ∧ c ≤ '9' then some (c.toNat - '0'.toNat)
  else if 'a' ≤ c ∧ c ≤ 'f' then some (c.toNat - 'a'.toNat + 10)
  else if 'A' ≤ c ∧ c ≤ 'F' then some (c.toNat - 'A'.toNat + 10)
  else none

/-- Four hex digits of a `\uXXXX` escape. -/
def hex4 : GoStr → Option (Nat × GoStr)
  | a :: b :: c :: d :: rest =>
    match hexVal a, hexVal b, hexVal c, hexVal d with
    | some x, some y, some z, some w => some (((x * 16 + y) * 16 + z) * 16 + w, rest)
    | _, _, _, _ => none
  | _ => none

/-- Decode one `\u` escape, combining surrogate pairs the way Go's decoder
does (an unpaired surrogate becomes U+FFFD). -/
def uEscape (cs : GoStr) : Option (Char × GoStr) :=
  match hex4 cs with
  | none => none
  | some (n, rest) =>
    if 0xD800 ≤ n ∧ n ≤ 0xDBFF then
      match rest with
      | '\\' :: 'u' :: rest2 =>
        match hex4 rest2 with
        | some (m, rest3) =>
          if 0xDC00 ≤ m ∧ m ≤ 0xDFFF then
            some (Char.ofNat (0x10000 + (n - 0xD800) * 0x400 + (m - 0xDC00)), rest3)
          else some ((Char.ofNat 0xFFFD), rest)
        | none => some ((Char.ofNat 0xFFFD), rest)
      | _ => some ((Char.ofNat 0xFFFD), rest)
    else if 0xDC00 ≤ n ∧ n ≤ 0xDFFF then some ((Char.ofNat 0xFFFD), rest)
    else some (Char.ofNat n, rest)

/-- Parse the body of a JSON string literal (after the opening quote),
returning the decoded characters and the input after the closing quote. -/
def parseStrBody (fuel : Nat) (cs : GoStr) : Option (GoStr × GoStr) :=
  match fuel with
  | 0 => none
  | f + 1 =>
    match cs with
    | [] => none
    | '"' :: rest => some ([], rest)
    | '\\' :: e :: rest =>
      let dec : Option (Char × GoStr) :=
        match e with
        | '"' => some ('"', rest)
        | '\\' => some ('\\', rest)
        | '/' => some ('/', rest)
        | 'b' => some ('\x08', rest)
        | 'f' => some ('\x0c', rest)
        | 'n' => some ('\n', rest)
        | 'r' => some ('\r', rest)
        | 't' => some ('\t', rest)
        | 'u' => uEscape rest
        | _ => none
      match dec with
      | none => none
      | some (c, rest') =>
        match parseStrBody f rest' with
        | none => none
        | some (s, r) => some (c :: s, r)
    | c :: rest =>
      if c.toNat < 0x20 then none
      else
        match parseStrBody f rest with
        | none => none
        | some (s, r) => some (c :: s, r)

/-- One or more decimal digits. -/
def digits1 (cs : GoStr) : Option (GoStr × GoStr) :=
  let ds := cs.takeWhile (fun c => '0' ≤ c ∧ c ≤ '9')
  if ds.isEmpty then none else some (ds, cs.drop ds.length)

/-- Parse a JSON number (Go grammar: `-?(0|[1-9][0-9]*)(\.[0-9]+)?`
with an optional exponent), returning its source characters. -/
def parseNum (cs : GoStr) : Option (GoStr × GoStr) :=
  let (sign, cs1) := match cs with
    | '-' :: r => ([('-' : Char)], r)
    | _ => ([], cs)
  match cs1 with
  | '0' :: r1 =>
    match parseNumTail r1 with
    | (tail, r2) => some (sign ++ '0' :: tail, r2)
  | c :: _ =>
    if '1' ≤ c ∧ c ≤ '9' then
      match digits1 cs1 with
      | some (ds, r1) =>
        match parseNumTail r1 with
        | (tail, r2) => some (sign ++ ds ++ tail, r2)
      | none => none
    else none
  | [] => none
where
  /-- Optional fraction and exponent after the integer part. -/
  parseNumTail (cs : GoStr) : GoStr × GoStr :=
    let (frac, cs1) := match cs with
      | '.' :: r =>
        (match digits1 r with
         | some (ds, r1) => (some ('.' :: ds), r1)
         | none => (none, cs))
      | _ => (none, cs)
    match frac with
    | none =>
      (match expPart cs with
       | some (e, r) => (e, r)
       | none => ([], cs))
    | some fr =>
      (match expPart cs1 with
       | some (e, r) => (fr ++ e, r)
       | none => (fr, cs1))
  /-- Optional exponent. -/
  expPart (cs : GoStr) : Option (GoStr × GoStr) :=
    match cs with
    | c :: r =>
      if c = 'e' ∨ c = 'E' then
        let (sg, r1) := match r with
          | '+' :: rr => ([('+' : Char)], rr)
          | '-' :: rr => ([('-' : Char)], rr)
          | _ => ([], r)
        match digits1 r1 with
        | some (ds, r2) => some (c :: sg ++ ds, r2)
        | none => none
      else none
    | [] => none

/-- Insert a member into an object, overwriting an existing key the way a
Go map assignment does. -/
def insertMember (fields : List (GoStr × JValue)) (k : GoStr) (v : JValue) :
    List (GoStr × JValue) :=
  match fields with
  | [] => [(k, v)]
  | (k', v') :: rest =>
    if k' = k then (k', v) :: rest else (k', v') :: insertMember rest k v

mutual

/-- Parse one JSON value (after skipping leading whitespace). -/
def parseVal (fuel : Nat) (cs : GoStr) : Option (JValue × GoStr) :=
  match fuel with
  | 0 => none
  | f + 1 =>
    match skipWS cs with
    | [] => none
    | '\x7b' :: rest => parseMembers f (skipWS rest) []
    | '[' :: rest => parseElems f (skipWS rest) []
    | '"' :: rest =>
      match parseStrBody (rest.length + 1) rest with
      | some (s, r) => some (JValue.jstr s, r)
      | none => none
    | 't' :: 'r' :: 'u' :: 'e' :: rest => some (JValue.jbool true, rest)
    | 'f' :: 'a' :: 'l' :: 's' :: 'e' :: rest => some (JValue.jbool false, rest)
    | 'n' :: 'u' :: 'l' :: 'l' :: rest => some (JValue.jnull, rest)
    | cs' =>
      match parseNum cs' with
      | some (raw, r) => some (JValue.jnum raw, r)
      | none => none

/-- Parse object members; `cs` is positioned after `{` (and whitespace),
either at `}` or at the first key. -/
def parseMembers (fuel : Nat) (cs : GoStr) (acc : List (GoStr × JValue)) :
    Option (JValue × GoStr) :=
  match fuel with
  | 0 => none
  | f + 1 =>
    match cs with
    | '\x7d' :: rest => if acc.isEmpty then some (JValue.jobj [], rest) else none
    | '"' :: rest =>
      match parseStrBody (rest.length + 1) rest with
      | none => none
      | some (k, r1) =>
        match skipWS r1 with
        | ':' :: r2 =>
          match parseVal f r2 with
          | none => none
          | some (v, r3) =>
            let acc' := insertMember acc k v
            match skipWS r3 with
            | ',' :: r4 =>
              (match skipWS r4 with
               | '"' :: _ => parseMembers f (skipWS r4) acc'
               | _ => none)
            | '\x7d' :: r4 => some (JValue.jobj acc', r4)
            | _ => none
        | _ => none
    | _ => none

/-- Parse array elements; `cs` is positioned after `[` (and whitespace). -/
def parseElems (fuel : Nat) (cs : GoStr) (acc : List JValue) :
    Option (JValue × GoStr) :=
  match fuel with
  | 0 => none
  | f + 1 =>
    match cs with
    | ']' :: rest => if acc.isEmpty then some (JValue.jarr [], rest) else none
    | _ =>
      match parseVal f cs with
      | none => none
      | some (v, r1) =>
        let acc' := acc ++ [v]
        match skipWS r1 with
        | ',' :: r2 => parseElems f r2 acc'
        | ']' :: r2 => some (JValue.jarr acc', r2)
        | _ => none

end

/-- `json.Unmarshal(data, &m)` for `m : map[string]any`: succeeds iff the
whole input is exactly one JSON object plus surrounding whitespace. -/
def goUnmarshalMap (s : GoStr) : Option (List (GoStr × JValue)) :=
  match parseVal (s.length + 1) s with
  | some (JValue.jobj m, rest) => if (skipWS rest).isEmpty then some m else none
  | _ => none

/-- Go map lookup `m[k]` on the decoded object. -/
def mapGet (m : List (GoStr × JValue)) (k : GoStr) : Option JValue :=
  (m.find? (fun p => p.1 = k)).map (fun p => p.2)

/-- The Go type assertion `m[k].(string)`. -/
def jGetStr (m : List (GoStr × JValue)) (k : GoStr) : Option GoStr :=
  match mapGet m k with
  | some (JValue.jstr s) => some s
  | _ => none

/-- The Go type assertion `m[k].(map[string]any)`. -/
def jGetObj (m : List (GoStr × JValue)) (k : GoStr) :
    Option (List (GoStr × JValue)) :=
  match mapGet m k with
  | some (JValue.jobj o) => some o
  | _ => none

end Json

section Parsers

/-!
## Streaming event parsers (codex backend, `parse*JSON`)

Each parser trims its line, attempts `json.Unmarshal` into a map, and
returns its "no event" value (`""` / `false` / `none`) when decoding fails
or the discriminant fields do not match.
-/

/-- `parseReasoningJSON(raw)`: text of a `reasoning` event, or of a
`reasoning` item inside an `item.completed` envelope; `""` otherwise. -/
def parseReasoningJSON (raw : GoStr) : GoStr :=
  let line := trimSpace raw
  if line.isEmpty then []
  else
    match goUnmarshalMap line with
    | none => []
    | some msg =>
      match jGetStr msg (gs "type") with
      | none => []
      | some t =>
        if t = gs "reasoning" then
          match jGetStr msg (gs "text") with
          | some text => text
          | none => []
        else if t = gs "item.completed" then
          match jGetObj msg (gs "item") with
          | some item =>
            if jGetStr item (gs "type") = some (gs "reasoning") then
              match jGetStr item (gs "text") with
              | some text => text
              | none => []
            else []
          | none => []
        else []

/-- `parseThreadStartedJSON(raw)`: the `thread_id` of a `thread.started`
event; `""` otherwise. -/
def parseThreadStartedJSON (raw : GoStr) : GoStr :=
  let line := trimSpace raw
  if line.isEmpty then []
  else
    match goUnmarshalMap line with
    | none => []
    | some msg =>
      if jGetStr msg (gs "type") ≠ some (gs "thread.started") then []
      else
        match jGetStr msg (gs "thread_id") with
        | some id => id
        | none => []

/-- Usage statistics captured from codex `turn.completed` events. -/
structure CodexUsage where
  inputTokens : Int
  cachedInputTokens : Int
  outputTokens : Int
deriving DecidableEq, Repr

/-- Truncate a decoded JSON number toward zero, as Go's
`int(v)` conversion of the `float64` does for the token counts seen here
(exact decimal arithmetic stands in for the `float64` intermediate). -/
def jnumToInt (raw : GoStr) : Int :=
  let (neg, ds) := match raw with
    | '-' :: r => (true, r)
    | _ => (false, raw)
  let intDigits := ds.takeWhile (fun c => '0' ≤ c ∧ c ≤ '9')
  let n : Nat := intDigits.foldl (fun a c => a * 10 + (c.toNat - '0'.toNat)) 0
  if neg then -(n : Int) else (n : Int)

/-- `toInt(value any)`: a decoded JSON number truncated to `int`,
anything else (including a missing key) `0`. -/
def toInt (v : Option JValue) : Int :=
  match v with
  | some (JValue.jnum raw) => jnumToInt raw
  | _ => 0

/-- `parseUsageJSON(raw)`: the token counts of a `turn.completed` event
with a `usage` object, plus the `ok` flag. -/
def parseUsageJSON (raw : GoStr) : CodexUsage × Bool :=
  let line := trimSpace raw
  if line.isEmpty then (⟨0, 0, 0⟩, false)
  else
    match goUnmarshalMap line with
    | none => (⟨0, 0, 0⟩, false)
    | some msg =>
      if jGetStr msg (gs "type") ≠ some (gs "turn.completed") then (⟨0, 0, 0⟩, false)
      else
        match jGetObj msg (gs "usage") with
        | none => (⟨0, 0, 0⟩, false)
        | some usage =>
          (⟨toInt (mapGet usage (gs "input_tokens")),
            toInt (mapGet usage (gs "cached_input_tokens")),
            toInt (mapGet usage (gs "output_tokens"))⟩, true)

/-- The per-line recognizer inside `parseCodexJSON`'s loop: the non-blank
text of an `agent_message` event (bare, or inside an `item.completed`
envelope); `none` for blank, malformed and unrecognized lines, which
leave `last` unchanged. -/
def codexLineText (rawLine : GoStr) : Option GoStr :=
  let line := trimSpace rawLine
  if line.isEmpty then none
  else
    match goUnmarshalMap line with
    | none => none
    | some msg =>
      match jGetStr msg (gs "type") with
      | none => none
      | some t =>
        if t = gs "agent_message" then
          match jGetStr msg (gs "text") with
          | some text => if (trimSpace text).isEmpty then none else some text
          | none => none
        else if t = gs "item.completed" then
          match jGetObj msg (gs "item") with
          | some item =>
            if jGetStr item (gs "type") = some (gs "agent_message") then
              match jGetStr item (gs "text") with
              | some text => if (trimSpace text).isEmpty then none else some text
              | none => none
            else none
          | none => none
        else none

/-- `parseCodexJSON(raw)`: split the concatenated output into lines and
keep the text of the last recognized completed-message event. -/
def parseCodexJSON (raw : GoStr) : GoStr :=
  (splitOnChar '\n' raw).foldl
    (fun last line =>
      match codexLineText line with
      | some t => t
      | none => last)
    []

end Parsers

section Trackers

/-!
## Session/thread identifier retention

`threadTracker.set` (codex) keeps the first non-blank identifier; the
gemini read loop (`if parsed.SessionID != "" { sessionID = ... }`)
overwrites with every non-empty identifier.
-/

/-- `threadTracker.set(id)` (also `Registry.setThreadID`): record the
trimmed id only when nothing is recorded yet and the id is non-blank. -/
def threadSet (t id : GoStr) : GoStr :=
  if t = [] ∧ trimSpace id ≠ [] then trimSpace id else t

/-- The gemini session-id assignment inside the read loop. -/
def geminiSessStep (sessionID parsedSessionID : GoStr) : GoStr :=
  if parsedSessionID ≠ [] then parsedSessionID else sessionID

/-- The first non-blank identifier of the sequence, trimmed (`""` if all
are blank): what first-wins retention should produce. -/
def firstNonBlank : List GoStr → GoStr
  | [] => []
  | id :: rest => if trimSpace id = [] then firstNonBlank rest else trimSpace id

/-- The last non-empty identifier of the sequence, or the default:
what the gemini loop produces. -/
def lastNonBlankOr (dflt : GoStr) (ids : List GoStr) : GoStr :=
  ((ids.filter (fun id => ¬id.isEmpty)).getLast?).getD dflt

end Trackers

section Finalize

/-!
## Backend result finalization

The tail of each backend's `Generate`, from the point where the subprocess
has exited successfully (zero status, no stream read error, interrupted
flag false) to the returned `(string, error)` pair.  Elapsed wall-clock
time enters only through its rendered text, modelled as an input.
-/

/-- Modelled from the spec: `commit.StripCodeFence` is referenced by every
backend but its definition is not among the provided sources.  Per the
spec, if the trimmed text begins and ends with a triple-backtick fence
(optionally with a language tag on the opening fence), both fences are
removed and the inner content returned; otherwise the input is returned
unchanged. -/
def StripCodeFence (text : GoStr) : GoStr :=
  let t := trimSpace text
  let fence := gs "\x60\x60\x60"
  if startsWithStr t fence ∧ endsWithStr t fence ∧ 6 < t.length then
    let afterOpen := t.drop 3
    let body := match afterOpen.dropWhile (fun c => c ≠ '\n') with
      | '\n' :: r => r
      | _ => afterOpen
    trimSpace (body.take (body.length - 3))
  else text

/-- `extractJSONField(raw, keys)`: for each key in order, find
`"key":`, skip whitespace, and if a quoted string follows, return it
decoded by the naive backslash scan; `""` when no key matches. -/
def extractJSONField (raw : GoStr) (keys : List GoStr) : GoStr :=
  match keys with
  | [] => []
  | key :: restKeys =>
    let needle := '"' :: key ++ gs "\":"
    match findSub raw needle with
    | none => extractJSONField raw restKeys
    | some idx =>
      let after := raw.drop (idx + needle.length)
      let rest := after.dropWhile (fun c => c = ' ' ∨ c = '\n' ∨ c = '\r' ∨ c = '\t')
      match rest with
      | '"' :: body =>
        match scanQuoted body with
        | some s => s
        | none => extractJSONField raw restKeys
      | _ => extractJSONField raw restKeys
where
  /-- The naive quoted-string scan: a backslash escapes the next character
  verbatim; an unescaped quote ends the value; running out of input finds
  no value. -/
  scanQuoted : GoStr → Option GoStr
    | [] => none
    | '\\' :: c :: rest => (scanQuoted rest).map (fun s => c :: s)
    | '\\' :: [] => none
    | '"' :: _ => some []
    | c :: rest => (scanQuoted rest).map (fun s => c :: s)

/-- `appendUsageComment` (codex): append the token/elapsed trailer unless
the usage is still the zero value; append the model name if non-blank. -/
def appendUsageComment (message : GoStr) (usage : CodexUsage)
    (elapsedText model : GoStr) : GoStr :=
  if usage = ⟨0, 0, 0⟩ then message
  else
    let comment := message ++ gs "\n\n# tokens: input=" ++ intStr usage.inputTokens
      ++ gs " cached=" ++ intStr usage.cachedInputTokens
      ++ gs " output=" ++ intStr usage.outputTokens
      ++ gs " elapsed=" ++ elapsedText
    if trimSpace model ≠ [] then comment ++ gs " model=" ++ model else comment

/-- `codexOutputIndicatesFailure(output)`. -/
def codexOutputIndicatesFailure (output : GoStr) : Bool :=
  containsStr output (gs "failed:")

/-- Tail of `codex.Generate` after a successful exit without interruption
(the accumulated standard-output buffer in, the `(string, error)` result
out).  `Except.error` is a non-nil Go error. -/
def codexFinalize (buffer : GoStr) (usage : CodexUsage)
    (elapsedText model : GoStr) : Except GoStr GoStr :=
  let output := trimSpace buffer
  if output.isEmpty then Except.ok []
  else if codexOutputIndicatesFailure output then
    Except.error (gs "codex invocation failed")
  else
    let parsed := parseCodexJSON output
    if ¬(trimSpace parsed).isEmpty then
      Except.ok (appendUsageComment
        (WrapMessage (StripCodeFence (trimSpace parsed)) 72) usage elapsedText model)
    else
      let extracted := extractJSONField output
        [gs "output", gs "stdout", gs "result", gs "message"]
      if startsWithStr output (gs "\x7b") ∧ ¬(trimSpace extracted).isEmpty then
        Except.ok (appendUsageComment
          (WrapMessage (StripCodeFence (trimSpace extracted)) 72) usage elapsedText model)
      else
        Except.ok (appendUsageComment
          (WrapMessage (StripCodeFence output) 72) usage elapsedText model)

/-- Usage statistics of a gemini `result` event. -/
structure GeminiStats where
  totalTokens : Int
  inputTokens : Int
  outputTokens : Int
  durationMS : Int
deriving DecidableEq, Repr

/-- gemini `appendUsageComment`. -/
def appendUsageCommentGemini (message sessionID : GoStr) (stats : GeminiStats)
    (elapsedText model : GoStr) : GoStr :=
  let b := message ++ gs "\n\n# tokens: input=" ++ intStr stats.inputTokens
    ++ gs " output=" ++ intStr stats.outputTokens
    ++ gs " elapsed=" ++ elapsedText
  let b := if sessionID ≠ [] then b ++ gs "\n# session=" ++ sessionID else b
  if model ≠ [] then b ++ gs " model=" ++ model else b

/-- Tail of `gemini.Generate` after a successful `cmd.Wait()`: an
`error` status or an empty (stripped, trimmed) accumulated response is an
error; otherwise the wrapped message with the usage trailer. -/
def geminiFinalize (status accumulatedContent sessionID : GoStr)
    (stats : GeminiStats) (elapsedText model : GoStr) : Except GoStr GoStr :=
  if status = gs "error" then Except.error (gs "gemini returned an error")
  else
    let text := StripCodeFence (trimSpace accumulatedContent)
    if text.isEmpty then Except.error (gs "gemini returned empty response")
    else
      Except.ok (appendUsageCommentGemini (WrapMessage text 72) sessionID stats
        elapsedText model)

/-- The fields of the claude `result` event used by the finalization path
(`total_cost_usd` is kept in exact micro-dollars; no claim depends on the
floating-point rendering). -/
structure ClaudeResult where
  subtype : GoStr
  result : GoStr
  totalCostMicroUSD : Int
  isError : Bool
  sessionID : GoStr
deriving DecidableEq, Repr

/-- Fixed-point rendering of micro-dollars with four decimals, standing in
for `fmt.Sprintf("%.4f", cr.TotalCostUSD)`. -/
def costStr (micro : Int) : GoStr :=
  let sign : GoStr := if micro < 0 then ['-'] else []
  let n := micro.natAbs
  let whole := n / 1000000
  let frac := (n % 1000000 + 50) / 100
  let fracDigits := Nat.toDigits 10 frac
  let padded := List.replicate (4 - fracDigits.length) '0' ++ fracDigits
  sign ++ Nat.toDigits 10 whole ++ '.' :: padded

/-- claude `appendUsageComment`, without the per-model usage lines (the Go
`range` over the `modelUsage` map has no specified order). -/
def appendUsageCommentClaude (message : GoStr) (cr : ClaudeResult)
    (elapsedText : GoStr) (budgetMicroUSD : Int) : GoStr :=
  if cr.sessionID = [] ∧ cr.totalCostMicroUSD = 0 then message
  else
    let b := message ++ gs "\n\n# cost=$" ++ costStr cr.totalCostMicroUSD
      ++ gs " elapsed=" ++ elapsedText
      ++ gs "\n# session=" ++ cr.sessionID
    if 0 < budgetMicroUSD ∧ budgetMicroUSD < cr.totalCostMicroUSD then
      b ++ gs "\n# error: max_budget_exceeded"
    else if cr.isError ∧ cr.subtype ≠ [] then
      b ++ gs "\n# error: " ++ cr.subtype
    else b

/-- Tail of `claude.Generate` after a successful `cmd.Wait()`: prefer the
result event's text, fall back to the last assistant message on an
`error_*` subtype, and report an error when nothing non-blank remains. -/
def claudeFinalize (result : ClaudeResult) (lastAssistant : GoStr)
    (elapsedText : GoStr) (budgetMicroUSD : Int) : Except GoStr GoStr :=
  let responseText :=
    if result.result = [] ∧ startsWithStr result.subtype (gs "error_") then
      lastAssistant
    else result.result
  let text := StripCodeFence (trimSpace responseText)
  if text.isEmpty then
    if result.subtype ≠ [] then Except.error (gs "claude: " ++ result.subtype)
    else Except.error (gs "claude returned empty response")
  else
    Except.ok (appendUsageCommentClaude (WrapMessage text 72) result elapsedText
      budgetMicroUSD)

end Finalize

section RegistryTheorems

/-- `ForwardSignal` latches (never clears) the interrupted flag: the new
flag is the old one or-ed with "the signal is an interrupt". -/
theorem ForwardSignal_fst_interrupted (w : Bool) (sig : GoSignal) (s : RegState) :
    (ForwardSignal w sig s).1.interrupted
      = (s.interrupted || sig == GoSignal.interrupt) := by
  rcases s with ⟨_ | ⟨_ | pid⟩, st, intr⟩
  · rfl
  · rfl
  · dsimp only [ForwardSignal]
    split <;> rfl

/-- Claim C1 as stated is false: `Register` (a registry operation) resets
the latched interrupted flag.  Concretely, starting from the zero-valued
registry, `ForwardSignal(os.Interrupt)` sets the flag, and a subsequent
`Register` call makes it false again. -/
theorem c1_register_resets_interrupted :
    (ForwardSignal false GoSignal.interrupt initRegistry).1.interrupted = true
    ∧ (List.foldl applyOp (ForwardSignal false GoSignal.interrupt initRegistry).1
        [RegOp.register ⟨some 7⟩ false]).interrupted = false := by
  decide

/-- Claim C1 amended: once the interrupted flag is true, no later registry
operation **other than `register`** (which starts a new run and clears the
flag) ever makes it false again. -/
theorem c1_interrupted_latched_without_register (s : RegState) (ops : List RegOp)
    (hops : ∀ op ∈ ops, op.isRegisterOp = false) (h : s.interrupted = true) :
    (List.foldl applyOp s ops).interrupted = true := by
  induction ops generalizing s with
  | nil => simpa using h
  | cons op rest ih =>
    have hop : op.isRegisterOp = false := hops op (List.mem_cons_self op rest)
    have hrest : ∀ o ∈ rest, o.isRegisterOp = false :=
      fun o ho => hops o (List.mem_cons_of_mem op ho)
    have hpres : (applyOp s op).interrupted = true := by
      cases op with
      | register c stop => simp [RegOp.isRegisterOp] at hop
      | unregister => simpa [applyOp, Unregister] using h
      | forwardSignal w sig =>
        simp [applyOp, ForwardSignal_fst_interrupted, h]
      | stopSpinnerIfSet => simpa [applyOp, StopSpinnerIfSet] using h
      | wasInterrupted => simpa [applyOp] using h
    simpa using ih (applyOp s op) hrest hpres

/-- Witness for the amended C1: from an interrupted state, a concrete
sequence of non-register operations leaves the flag set. -/
theorem c1_interrupted_latched_witness :
    (∀ op ∈ [RegOp.unregister, RegOp.forwardSignal false GoSignal.sigterm,
        RegOp.stopSpinnerIfSet, RegOp.wasInterrupted], op.isRegisterOp = false)
    ∧ (ForwardSignal false GoSignal.interrupt
        (Register ⟨some 7⟩ true initRegistry)).1.interrupted = true
    ∧ (List.foldl applyOp
        (ForwardSignal false GoSignal.interrupt
          (Register ⟨some 7⟩ true initRegistry)).1
        [RegOp.unregister, RegOp.forwardSignal false GoSignal.sigterm,
         RegOp.stopSpinnerIfSet, RegOp.wasInterrupted]).interrupted = true :=
  ⟨by decide, by decide,
   c1_interrupted_latched_without_register _ _ (by decide) (by decide)⟩

/-- Claim C4 as stated is false: a SIGTERM delivered to a registry with a
registered process is forwarded to the process group, but the interrupted
flag stays false (the source sets it only for `os.Interrupt`). -/
theorem c4_sigterm_does_not_set_interrupted :
    (ForwardSignal false GoSignal.sigterm
        (Register ⟨some 7⟩ false initRegistry)).2
      = SigAction.killGroup 7 GoSignal.sigterm
    ∧ (ForwardSignal false GoSignal.sigterm
        (Register ⟨some 7⟩ false initRegistry)).1.interrupted = false := by
  decide

/-- Claim C4 amended: `forwardSignal` sets the interrupted flag only for
the interrupt signal; independently, when a started process is registered,
interrupt/termination signals go to the whole process group on
non-Windows, every other case falls back to direct single-process
signaling, and nothing is signaled without a registered process. -/
theorem c4_forward_signal_behavior (w : Bool) (sig : GoSignal) (s : RegState) :
    ((ForwardSignal w sig s).1.interrupted
        = (s.interrupted || sig == GoSignal.interrupt))
    ∧ (∀ c pid, s.cmd = some c → c.process = some pid → w = false →
        sig = GoSignal.interrupt ∨ sig = GoSignal.sigterm →
        (ForwardSignal w sig s).2 = SigAction.killGroup pid sig)
    ∧ (s.cmd = none → (ForwardSignal w sig s).2 = SigAction.noAction)
    ∧ (∀ c pid, s.cmd = some c → c.process = some pid →
        (w = true ∨ (sig ≠ GoSignal.interrupt ∧ sig ≠ GoSignal.sigterm)) →
        (ForwardSignal w sig s).2 = SigAction.signalProcess pid sig) := by
  refine ⟨ForwardSignal_fst_interrupted w sig s, ?_, ?_, ?_⟩
  · rintro c pid hc hp rfl hsig
    rcases s with ⟨cmd, st, intr⟩
    rcases c with ⟨proc⟩
    cases hc
    cases hp
    rcases hsig with rfl | rfl <;> simp [ForwardSignal]
  · intro hc
    rcases s with ⟨cmd, st, intr⟩
    cases hc
    rfl
  · rintro c pid hc hp hcase
    rcases s with ⟨cmd, st, intr⟩
    rcases c with ⟨proc⟩
    cases hc
    cases hp
    rcases hcase with rfl | ⟨h1, h2⟩
    · simp [ForwardSignal]
    · simp [ForwardSignal, h1, h2]

/-- Witness for the amended C4 at a concrete registered state and SIGTERM
on non-Windows: the flag stays false and the group is signaled. -/
theorem c4_forward_signal_witness :
    (ForwardSignal false GoSignal.sigterm
        (RegState.mk (some ⟨some 9⟩) false false)).1.interrupted
      = (false || GoSignal.sigterm == GoSignal.interrupt)
    ∧ (ForwardSignal false GoSignal.sigterm
        (RegState.mk (some ⟨some 9⟩) false false)).2
      = SigAction.killGroup 9 GoSignal.sigterm :=
  ⟨(c4_forward_signal_behavior false GoSignal.sigterm
      (RegState.mk (some ⟨some 9⟩) false false)).1,
   (c4_forward_signal_behavior false GoSignal.sigterm
      (RegState.mk (some ⟨some 9⟩) false false)).2.1
     ⟨some 9⟩ 9 rfl rfl rfl (Or.inr rfl)⟩

/-- Claim C8: after `register` then `unregister`, a `forwardSignal` call
sends no signal to any process, whatever the signal and platform. -/
theorem c8_forward_after_unregister_noop (s : RegState) (c : GoCmd)
    (stop : Bool) (w : Bool) (sig : GoSignal) :
    (ForwardSignal w sig (Unregister (Register c stop s))).2
      = SigAction.noAction := rfl

end RegistryTheorems

section TrackerTheorems

/-- Once `threadTracker.set` has recorded an identifier, later calls never
change it. -/
theorem foldl_threadSet_of_ne_nil (ids : List GoStr) (t : GoStr) (h : t ≠ []) :
    List.foldl threadSet t ids = t := by
  induction ids with
  | nil => rfl
  | cons id rest ih =>
    have : threadSet t id = t := by simp [threadSet, h]
    simpa [this] using ih

/-- `getD` after `getLast?` ignores the default on a non-empty list. -/
theorem getLast?_getD_of_ne_nil {α : Type} (l : List α) (a b : α)
    (h : l ≠ []) : l.getLast?.getD a = l.getLast?.getD b := by
  cases l with
  | nil => exact absurd rfl h
  | cons x xs => simp [List.getLast?_cons]

/-- Claim C5 as stated is false for the gemini runner: observing the
non-blank session identifiers `"a"` then `"b"`, the loop retains `"b"`,
not the first non-blank identifier `"a"`. -/
theorem c5_gemini_keeps_last :
    List.foldl geminiSessStep [] [['a'], ['b']] = ['b']
    ∧ firstNonBlank [['a'], ['b']] = ['a']
    ∧ (['b'] : GoStr) ≠ ['a'] := by decide

/-- Claim C5 amended: the codex runner (threadTracker.set, starting empty)
retains the first non-blank identifier, trimmed, ignoring all later ones;
the gemini runner's loop instead retains the last non-empty identifier
observed (or its previous value when none arrives). -/
theorem c5_id_retention :
    (∀ ids : List GoStr, List.foldl threadSet [] ids = firstNonBlank ids)
    ∧ (∀ (s : GoStr) (ids : List GoStr),
        List.foldl geminiSessStep s ids = lastNonBlankOr s ids) := by
  constructor
  · intro ids
    induction ids with
    | nil => rfl
    | cons id rest ih =>
      by_cases h : trimSpace id = []
      · simp [firstNonBlank, threadSet, h, ih]
      · have h1 : threadSet [] id = trimSpace id := by simp [threadSet, h]
        simp [firstNonBlank, h, h1, foldl_threadSet_of_ne_nil rest (trimSpace id) h]
  · intro s ids
    induction ids generalizing s with
    | nil => rfl
    | cons id rest ih =>
      by_cases h : id = ([] : GoStr)
      · subst h
        simp [geminiSessStep, lastNonBlankOr, ih]
      · have hstep : geminiSessStep s id = id := by simp [geminiSessStep, h]
        have hfil : (id :: rest).filter (fun x => ¬x.isEmpty)
            = id :: rest.filter (fun x => ¬x.isEmpty) := by
          simp [List.filter_cons, List.isEmpty_iff, h]
        rw [List.foldl_cons, hstep, ih id]
        unfold lastNonBlankOr
        rw [hfil]
        cases hf : rest.filter (fun x => ¬x.isEmpty) with
        | nil => simp
        | cons y ys =>
          rw [getLast?_getD_of_ne_nil (y :: ys) id s (by simp)]
          simp [List.getLast?_cons_cons]

end TrackerTheorems

section ParserTheorems

/-- A fold that replaces its accumulator whenever `f` recognizes an
element computes the last recognized value (with the default for none). -/
theorem foldl_getD_eq_getLast {α β : Type} (f : α → Option β) (l : List α)
    (a : β) :
    List.foldl (fun last x => (f x).getD last) a l
      = ((l.filterMap f).getLast?).getD a := by
  induction l generalizing a with
  | nil => rfl
  | cons x rest ih =>
    rw [List.foldl_cons, List.filterMap_cons]
    cases hf : f x with
    | none => simpa using ih a
    | some b =>
      simp only [Option.getD_some]
      rw [ih b]
      cases hr : rest.filterMap f with
      | nil => rfl
      | cons y ys =>
        rw [getLast?_getD_of_ne_nil (y :: ys) b a (by simp)]
        simp [List.getLast?_cons_cons]

/-- Claim C7: `parseCodexJSON` returns the text of the **last** recognized
completed-message event of the concatenated output, skipping blank and
malformed lines; in particular, on the two-line `agent_message` stream the
second text `"feat: add x and y"` wins. -/
theorem c7_parse_codex_last_wins :
    (∀ raw : GoStr, parseCodexJSON raw
        = (((splitOnChar '\n' raw).filterMap codexLineText).getLast?).getD [])
    ∧ parseCodexJSON (gs "\x7b\"type\":\"agent_message\",\"text\":\"feat: add x\"\x7d\n\x7b\"type\":\"agent_message\",\"text\":\"feat: add x and y\"\x7d")
      = gs "feat: add x and y" := by
  constructor
  · intro raw
    unfold parseCodexJSON
    have hfun : (fun (last line : GoStr) =>
          match codexLineText line with
          | some t => t
          | none => last)
        = fun (last line : GoStr) => (codexLineText line).getD last := by
      funext last line
      cases codexLineText line <;> rfl
    rw [hfun]
    exact foldl_getD_eq_getLast codexLineText (splitOnChar '\n' raw) []
  · decide

/-- Claim C9: a line that does not decode as a JSON object (empty lines
and plain diagnostic text included) produces the "no event" value of every
streaming event parser: `""` for the reasoning and thread-started parsers,
`ok = false` for the usage parser, and no completed-message text.  (In the
embedding all parsers are total functions, so no panic is possible.) -/
theorem c9_malformed_line_no_event (raw : GoStr)
    (h : (goUnmarshalMap (trimSpace raw)).isNone = true) :
    parseReasoningJSON raw = []
    ∧ parseThreadStartedJSON raw = []
    ∧ (parseUsageJSON raw).2 = false
    ∧ codexLineText raw = none := by
  have h' : goUnmarshalMap (trimSpace raw) = none := by
    cases hu : goUnmarshalMap (trimSpace raw) with
    | none => rfl
    | some m => rw [hu] at h; simp at h
  refine ⟨?_, ?_, ?_, ?_⟩
  · unfold parseReasoningJSON
    by_cases he : (trimSpace raw).isEmpty <;> simp [he, h']
  · unfold parseThreadStartedJSON
    by_cases he : (trimSpace raw).isEmpty <;> simp [he, h']
  · unfold parseUsageJSON
    by_cases he : (trimSpace raw).isEmpty <;> simp [he, h']
  · unfold codexLineText
    by_cases he : (trimSpace raw).isEmpty <;> simp [he, h']

/-- Witness for C9 at a plain diagnostic line. -/
theorem c9_malformed_line_witness :
    (goUnmarshalMap (trimSpace (gs "reading prompt from stdin..."))).isNone = true
    ∧ (parseReasoningJSON (gs "reading prompt from stdin...") = []
      ∧ parseThreadStartedJSON (gs "reading prompt from stdin...") = []
      ∧ (parseUsageJSON (gs "reading prompt from stdin...")).2 = false
      ∧ codexLineText (gs "reading prompt from stdin...") = none) :=
  ⟨by decide, c9_malformed_line_no_event _ (by decide)⟩

end ParserTheorems

section WrapTheorems

/-- When `breakFirstNL` finds no newline, the string has none. -/
theorem breakFirstNL_none_no_newline (r : GoStr) (h : breakFirstNL r = none) :
    '\n' ∉ r := by
  induction r with
  | nil => simp
  | cons c cs ih =>
    rw [breakFirstNL] at h
    by_cases hc : c = '\n'
    · rw [if_pos hc] at h
      simp at h
    · rw [if_neg hc] at h
      cases hb : breakFirstNL cs with
      | none =>
        intro hmem
        rcases List.mem_cons.mp hmem with hcEq | hmem'
        · exact hc hcEq.symm
        · exact ih hb hmem'
      | some p =>
        rw [hb] at h
        cases p with
        | mk a b => simp at h

/-- The part before the first newline contains no newline. -/
theorem breakFirstNL_some_no_newline (r a b : GoStr)
    (h : breakFirstNL r = some (a, b)) : '\n' ∉ a := by
  induction r generalizing a b with
  | nil => simp [breakFirstNL] at h
  | cons c cs ih =>
    rw [breakFirstNL] at h
    by_cases hc : c = '\n'
    · rw [if_pos hc] at h
      cases h
      simp
    · rw [if_neg hc] at h
      cases hb : breakFirstNL cs with
      | none => rw [hb] at h; simp at h
      | some p =>
        rw [hb] at h
        cases p with
        | mk a' b' =>
          simp only [Option.some.injEq, Prod.mk.injEq] at h
          rcases h with ⟨rfl, rfl⟩
          intro hmem
          rcases List.mem_cons.mp hmem with hcEq | hmem'
          · exact hc hcEq.symm
          · exact ih a' b' hb hmem'

/-- After dropping leading newlines, the head is not a newline. -/
theorem head?_dropWhile_nl (l : GoStr) :
    (l.dropWhile (fun c => c = '\n')).head? ≠ some '\n' := by
  induction l with
  | nil => simp
  | cons c cs ih =>
    by_cases hc : c = '\n'
    · simpa [List.dropWhile_cons, hc] using ih
    · simp [List.dropWhile_cons, hc]

/-- Claim C10: the output of `WrapMessage` is either a single line with no
newline, or `first ++ "\n\n" ++ rest` where the first line has no newline
and `rest` is non-blank and does not itself begin with a newline — the
commit subject is separated from all remaining content by exactly one
blank line. -/
theorem c10_subject_blank_line_shape (msg : GoStr) (width : Nat) :
    ('\n' ∉ WrapMessage msg width)
    ∨ (∃ first rest : GoStr,
        WrapMessage msg width = first ++ '\n' :: '\n' :: rest
        ∧ '\n' ∉ first
        ∧ trimSpace rest ≠ []
        ∧ rest.head? ≠ some '\n') := by
  unfold WrapMessage
  generalize joinNL ((splitOnNN msg).foldl (wrapParagraph width) []) = r
  unfold flattenSubject
  cases hb : breakFirstNL r with
  | none =>
    left
    exact breakFirstNL_none_no_newline r hb
  | some p =>
    cases p with
    | mk first tail =>
      by_cases hblank : (trimSpace (tail.dropWhile (fun c => c = '\n'))).isEmpty
      · left
        simp only [hblank, if_pos]
        simpa using breakFirstNL_some_no_newline r first tail hb
      · right
        refine ⟨first, tail.dropWhile (fun c => c = '\n'), ?_, ?_, ?_, ?_⟩
        · simp [hblank]
        · exact breakFirstNL_some_no_newline r first tail hb
        · simpa [List.isEmpty_iff] using hblank
        · exact head?_dropWhile_nl tail

/-- Claim C2 fails on the code: at width 10, the input
`"abcd efghi jklmn"` wraps to a final line `"efghi jklmn"` of length 11
that contains a space — a non-blank multi-word output line longer than the
width.  (After the forced break, the remainder of the broken line plus the
next word is emitted without a further width check.) -/
theorem c2_wrap_width_violation :
    WrapMessage (gs "abcd efghi jklmn") 10 = gs "abcd\n\nefghi jklmn"
    ∧ (splitOnChar '\n' (WrapMessage (gs "abcd efghi jklmn") 10)).any
        (fun l => decide (10 < l.length) && l.contains ' ') = true := by
  decide

/-- Claim C3 fails on the code: `WrapMessage` is not idempotent.  At width
10, `"abcd efghi jklmn"` wraps once to `"abcd\n\nefghi jklmn"` (with an
over-long final line), and wrapping that output again splits the final
line, giving a different string. -/
theorem c3_wrap_not_idempotent :
    WrapMessage (WrapMessage (gs "abcd efghi jklmn") 10) 10
      ≠ WrapMessage (gs "abcd efghi jklmn") 10
    ∧ WrapMessage (WrapMessage (gs "abcd efghi jklmn") 10) 10
      = gs "abcd\n\nefghi\njklmn" := by
  decide

end WrapTheorems

section FinalizeTheorems

/-- Claim C6 as stated is false for the gemini runner: a successful exit
with no accumulated assistant content produces a non-nil error
(`"gemini returned empty response"`), not a successful empty return. -/
theorem c6_gemini_empty_is_error :
    geminiFinalize [] [] [] ⟨0, 0, 0, 0⟩ [] []
      = Except.error (gs "gemini returned empty response") := rfl

/-- Claim C6 amended: only the codex runner maps "nothing usable" to a
successful empty return; the gemini and claude runners surface a non-nil
error when the extracted text is empty after a successful exit. -/
theorem c6_empty_result_per_backend :
    (∀ (buffer : GoStr) (usage : CodexUsage) (elapsedText model : GoStr),
        trimSpace buffer = [] →
        codexFinalize buffer usage elapsedText model = Except.ok [])
    ∧ (∀ (status acc sessionID : GoStr) (stats : GeminiStats)
        (elapsedText model : GoStr),
        trimSpace acc = [] →
        (geminiFinalize status acc sessionID stats elapsedText model).isOk
          = false)
    ∧ (∀ (res : ClaudeResult) (lastAssistant elapsedText : GoStr)
        (budget : Int),
        res.result = [] → lastAssistant = [] →
        (claudeFinalize res lastAssistant elapsedText budget).isOk = false) := by
  refine ⟨?_, ?_, ?_⟩
  · intro buffer usage elapsedText model h
    unfold codexFinalize
    simp [h]
  · intro status acc sessionID stats elapsedText model h
    unfold geminiFinalize
    by_cases hs : status = gs "error"
    · simp [hs, Except.isOk, Except.toBool]
    · have : StripCodeFence (trimSpace acc) = [] := by rw [h]; rfl
      simp [hs, this, Except.isOk, Except.toBool]
  · intro res lastAssistant elapsedText budget hres hla
    unfold claudeFinalize
    have hresp : (if res.result = [] ∧
          startsWithStr res.subtype (gs "error_") = true then lastAssistant
        else res.result) = ([] : GoStr) := by
      by_cases hcond : res.result = [] ∧
          startsWithStr res.subtype (gs "error_") = true
      · rw [if_pos hcond, hla]
      · rw [if_neg hcond, hres]
    rw [hresp]
    have hstrip : StripCodeFence (trimSpace []) = [] := rfl
    by_cases hsub : res.subtype ≠ [] <;> simp [hstrip, hsub, Except.isOk, Except.toBool]

/-- Witness for the amended C6 at concrete empty outputs of each backend. -/
theorem c6_empty_result_witness :
    codexFinalize (gs " \n ") ⟨0, 0, 0⟩ [] [] = Except.ok []
    ∧ (geminiFinalize [] (gs "  ") [] ⟨0, 0, 0, 0⟩ [] []).isOk = false
    ∧ (claudeFinalize ⟨[], [], 0, false, []⟩ [] [] 1000000).isOk = false :=
  ⟨c6_empty_result_per_backend.1 (gs " \n ") ⟨0, 0, 0⟩ [] [] (by decide),
   c6_empty_result_per_backend.2.1 [] (gs "  ") [] ⟨0, 0, 0, 0⟩ [] [] (by decide),
   c6_empty_result_per_backend.2.2 ⟨[], [], 0, false, []⟩ [] [] 1000000 rfl rfl⟩

end FinalizeTheorems
